import Mathlib

/-!
Shallow embedding of the voice-driven streaming client:
the conversation log store and settings store (`src/lib/state.ts`),
the transcript-accumulation handlers of `StreamingConsole`,
and the finalized-transcript command interpreter, tool-call bridge and
one-shot text-generation side channel (`src/hooks/media/use-live-api.ts`).

JS strings are modelled as lists of characters (`Str`); the texts involved
use only characters on which JS `toLowerCase`/`trim` agree with
`Char.toLower`/`Char.isWhitespace`.  Clock reads (`new Date()`) are passed
in explicitly as a `Nat` parameter `now`.
-/

/-- JS strings, modelled as their sequence of characters. -/
abbrev Str := List Char

/-- Embedding of JS `String.prototype.toLowerCase`. -/
def jsToLower (s : Str) : Str := s.map Char.toLower

/-- Embedding of JS `String.prototype.trim`: drop whitespace at both ends. -/
def jsTrim (s : Str) : Str :=
  ((s.dropWhile Char.isWhitespace).reverse.dropWhile Char.isWhitespace).reverse

/-- Embedding of `.replace(/[.,?]/g, '')`: remove every occurrence of the
three punctuation characters, wherever they occur. -/
def removePunct (s : Str) : Str :=
  s.filter (fun c => !(c == '.' || c == ',' || c == '?'))

/-- The `role` field of a `ConversationTurn` (src/lib/state.ts). -/
inductive Role where
  | user
  | agent
  | system
  deriving DecidableEq, Repr

/-- A turn of the persisted conversation log (src/lib/state.ts, `ConversationTurn`). -/
structure ConversationTurn where
  role : Role
  text : Str
  isFinal : Bool
  timestamp : Nat
  deriving DecidableEq, Repr

/-- The argument of `addTurn`: `Omit<ConversationTurn, 'timestamp'>`. -/
structure TurnData where
  role : Role
  text : Str
  isFinal : Bool
  deriving DecidableEq, Repr

/-- Embedding of `addTurn` of `useLogStore` (src/lib/state.ts): append the turn, stamped
with the current time `now`. -/
def addTurn (turn : TurnData) (now : Nat) (turns : List ConversationTurn) :
    List ConversationTurn :=
  turns ++ [⟨turn.role, turn.text, turn.isFinal, now⟩]

/-- The argument of `updateLastTurn`:
`Partial<Omit<ConversationTurn, 'role' | 'timestamp'>>`, i.e. an optional
new `text` and an optional new `isFinal`. -/
structure TurnUpdate where
  textU : Option Str := none
  isFinalU : Option Bool := none
  deriving DecidableEq, Repr

/-- JS object spread `{...turn, ...update}`: fields present in the update win. -/
def mergeTurn (t : ConversationTurn) (u : TurnUpdate) : ConversationTurn :=
  { t with text := u.textU.getD t.text, isFinal := u.isFinalU.getD t.isFinal }

/-- Embedding of `updateLastTurn` of `useLogStore` (src/lib/state.ts): no-op on an empty
log, otherwise replace the last turn by the spread of the update over it. -/
def updateLastTurn (u : TurnUpdate) (turns : List ConversationTurn) :
    List ConversationTurn :=
  match turns.getLast? with
  | none => turns
  | some lastTurn => turns.set (turns.length - 1) (mergeTurn lastTurn u)

/-- Embedding of `onInputTranscription` of `StreamingConsole`: if the last turn overall is a
non-final user turn, extend it (concatenating the chunk and taking the chunk's
finality), otherwise start a new user turn. -/
def onInputTranscriptionConsole (text : Str) (isFinal : Bool) (now : Nat)
    (turns : List ConversationTurn) : List ConversationTurn :=
  match turns.getLast? with
  | some lastTurn =>
    if lastTurn.role = Role.user ∧ lastTurn.isFinal = false then
      updateLastTurn ⟨some (lastTurn.text ++ text), some isFinal⟩ turns
    else
      addTurn ⟨Role.user, text, isFinal⟩ now turns
  | none => addTurn ⟨Role.user, text, isFinal⟩ now turns

/-- Embedding of `onOutputTranscription` of `StreamingConsole`: same as the input handler,
with role `agent`. -/
def onOutputTranscriptionConsole (text : Str) (isFinal : Bool) (now : Nat)
    (turns : List ConversationTurn) : List ConversationTurn :=
  match turns.getLast? with
  | some lastTurn =>
    if lastTurn.role = Role.agent ∧ lastTurn.isFinal = false then
      updateLastTurn ⟨some (lastTurn.text ++ text), some isFinal⟩ turns
    else
      addTurn ⟨Role.agent, text, isFinal⟩ now turns
  | none => addTurn ⟨Role.agent, text, isFinal⟩ now turns

/-- Embedding of `appendToCoreMemory` of `useSettings` (src/lib/state.ts): JS truthiness of
the current memory decides between starting a list and appending a line. -/
def appendToCoreMemory (coreMemory memory : Str) : Str :=
  if coreMemory.isEmpty = false then coreMemory ++ ("\n- ").data ++ memory
  else ("- ").data ++ memory

/-- State read and written by the command interpreter: the `connected` flag,
the UI store (`isSidebarOpen`, `quantumModeActive`), the settings store
(`coreMemory`) and the log store (`turns`). -/
structure AppState where
  connected : Bool
  isSidebarOpen : Bool
  quantumModeActive : Bool
  coreMemory : Str
  turns : List ConversationTurn
  deriving DecidableEq, Repr

/-- The local `addLog` helper of `onInputTranscription`: add a final system
turn to the log store. -/
def addLog (text : Str) (now : Nat) (st : AppState) : AppState :=
  { st with turns := addTurn ⟨Role.system, text, true⟩ now st.turns }

/-- Side-effecting calls the command interpreter can make, recorded in the
order they are performed. -/
inductive Effect where
  | connectEff
  | disconnectEff
  | toggleSidebarEff
  | appendMemory (memory : Str)
  | log (text : Str)
  deriving DecidableEq, Repr

/-- The normalization `text.toLowerCase().trim().replace(/[.,?]/g, '')` used
for exact-match command classification. -/
def normalizeCommand (text : Str) : Str := removePunct (jsTrim (jsToLower text))

/-- The `rememberPrefixes` literal of `onInputTranscription`. -/
def rememberPrefixes : List Str :=
  [("remember this").data, ("make a note").data,
   ("이것을 기억해").data, ("메모해 둬").data]

/-- Payload of a matched remember-prefix: the remainder of the original-cased,
trimmed text after the prefix, trimmed, with one optional leading colon
stripped and trimmed again. -/
def payloadOf (originalText p : Str) : Str :=
  let c1 := jsTrim (originalText.drop p.length)
  if [':'].isPrefixOf c1 then jsTrim (c1.drop 1) else c1

/-- The `for (const prefix of rememberPrefixes)` loop: first prefix matching
the lower-cased text with a non-empty payload wins; a matching prefix with an
empty payload takes no action and the loop continues. -/
def rememberLoop (originalText : Str) : List Str → Option Str
  | [] => none
  | p :: ps =>
    if p.isPrefixOf (jsToLower originalText) then
      let contentToRemember := payloadOf originalText p
      if contentToRemember.isEmpty then rememberLoop originalText ps
      else some contentToRemember
    else rememberLoop originalText ps

/-- The `openSettingsCommands` literal. -/
def openSettingsCommands : List Str := [("open settings").data, ("show settings").data]

/-- The `closeSettingsCommands` literal. -/
def closeSettingsCommands : List Str := [("close settings").data, ("hide settings").data]

/-- The `startCommands` literal. -/
def startCommands : List Str :=
  [("start stream").data, ("connect").data, ("start connection").data]

/-- The `stopCommands` literal. -/
def stopCommands : List Str :=
  [("stop stream").data, ("disconnect").data, ("end connection").data, ("stop").data]

/-- The `recallCommands` literal. -/
def recallCommands : List Str :=
  [("what did i say").data, ("what did i just say").data,
   ("unable to recall what i stated").data, ("repeat that").data]

/-- Log message `Voice command recognized: "<command>"`. -/
def recognizedMsg (command : Str) : Str :=
  ("Voice command recognized: \"").data ++ command ++ ("\"").data

/-- Log message `Added to Core Memory: "<content>"`. -/
def addedMsg (content : Str) : Str :=
  ("Added to Core Memory: \"").data ++ content ++ ("\"").data

/-- Log message `You said: "<text>"`. -/
def youSaidMsg (text : Str) : Str :=
  ("You said: \"").data ++ text ++ ("\"").data

/-- The fixed no-record log message of the recall branch. -/
def noRecordMsg : Str :=
  ("I don\x27t have a record of what you last said.").data

/-- Embedding of `onInputTranscription` of `useLiveApi` (src/hooks/media/use-live-api.ts):
the finalized-transcript command interpreter.  Returns the updated state and
the ordered list of side-effecting calls performed.  `connect()` is
asynchronous and does not change `connected` synchronously; `disconnect()`
clears `connected` and `quantumModeActive` synchronously. -/
def onInputTranscriptionLive (text : Str) (isFinal : Bool) (now : Nat)
    (st : AppState) : AppState × List Effect :=
  if isFinal = false then (st, [])
  else
    let command := normalizeCommand text
    let originalText := jsTrim text
    match rememberLoop originalText rememberPrefixes with
    | some contentToRemember =>
      let st1 := { st with coreMemory := appendToCoreMemory st.coreMemory contentToRemember }
      let st2 := addLog (addedMsg contentToRemember) now st1
      (st2, [Effect.appendMemory contentToRemember, Effect.log (addedMsg contentToRemember)])
    | none =>
      if openSettingsCommands.contains command then
        if st.isSidebarOpen = false then
          let st1 := { st with isSidebarOpen := !st.isSidebarOpen }
          (addLog (recognizedMsg command) now st1,
           [Effect.toggleSidebarEff, Effect.log (recognizedMsg command)])
        else (st, [])
      else if closeSettingsCommands.contains command then
        if st.isSidebarOpen then
          let st1 := { st with isSidebarOpen := !st.isSidebarOpen }
          (addLog (recognizedMsg command) now st1,
           [Effect.toggleSidebarEff, Effect.log (recognizedMsg command)])
        else (st, [])
      else if startCommands.contains command then
        if st.connected = false then
          (addLog (recognizedMsg command) now st,
           [Effect.connectEff, Effect.log (recognizedMsg command)])
        else (st, [])
      else if stopCommands.contains command then
        if st.connected then
          let st1 := { st with connected := false, quantumModeActive := false }
          (addLog (recognizedMsg command) now st1,
           [Effect.disconnectEff, Effect.log (recognizedMsg command)])
        else (st, [])
      else if recallCommands.contains command then
        let st1 := addLog (recognizedMsg command) now st
        match st1.turns.reverse.find? (fun t => decide (t.role = Role.user) && t.isFinal) with
        | some lastUserTurn =>
          (addLog (youSaidMsg lastUserTurn.text) now st1,
           [Effect.log (recognizedMsg command), Effect.log (youSaidMsg lastUserTurn.text)])
        | none =>
          (addLog noRecordMsg now st1,
           [Effect.log (recognizedMsg command), Effect.log noRecordMsg])
      else (st, [])

/-- One inbound tool invocation (`fc` in `onToolCall`); its `args` value is
carried in serialized form (`JSON.stringify(fc.args, null, 2)`), which is all
the handler ever uses. -/
structure FunctionCallMsg where
  id : Str
  name : Str
  argsJson : Str
  deriving DecidableEq, Repr

/-- One entry of the `functionResponses` batch: `{id, name, response: {result: 'ok'}}`,
with the `result` payload carried as its string value. -/
structure FunctionResponse where
  id : Str
  name : Str
  result : Str
  deriving DecidableEq, Repr

/-- The fixed response pushed for every invocation: `{id: fc.id, name: fc.name,
response: {result: 'ok'}}`. -/
def okResponse (fc : FunctionCallMsg) : FunctionResponse :=
  ⟨fc.id, fc.name, ("ok").data⟩

/-- The trigger log text: `Triggering function call: **<name>**` followed by a
JSON code block holding the serialized arguments. -/
def triggerMessage (fc : FunctionCallMsg) : Str :=
  ("Triggering function call: **").data ++ fc.name
    ++ ("**\n```json\n").data ++ fc.argsJson ++ ("\n```").data

/-- JSON string escaping for quotes and backslashes (the cases
`JSON.stringify` hits on the payloads used here). -/
def jsonEscapeChar (c : Char) : Str :=
  if c = '"' then ['\\', '"'] else if c = '\\' then ['\\', '\\'] else [c]

/-- A JSON string literal. -/
def jsonQuote (s : Str) : Str :=
  '"' :: ((s.map jsonEscapeChar).flatten ++ ['"'])

/-- Serialization (`JSON.stringify`, indent 2, nested in the array) of one response object. -/
def stringifyResponse (r : FunctionResponse) : Str :=
  ("  \x7b\n    \"id\": ").data ++ jsonQuote r.id
    ++ (",\n    \"name\": ").data ++ jsonQuote r.name
    ++ (",\n    \"response\": \x7b\n      \"result\": ").data ++ jsonQuote r.result
    ++ ("\n    \x7d\n  \x7d").data

/-- Interleave a separator between list elements. -/
def joinSep (sep : Str) : List Str → Str
  | [] => []
  | [x] => x
  | x :: y :: xs => x ++ sep ++ joinSep sep (y :: xs)

/-- Serialization `JSON.stringify(functionResponses, null, 2)` of the batch. -/
def stringifyResponses (rs : List FunctionResponse) : Str :=
  if rs.isEmpty then ("[]").data
  else ('[' :: '\n' :: joinSep ((",\n").data) (rs.map stringifyResponse))
    ++ ('\n' :: [']'])

/-- The summary log text `Function call response:` with the serialized batch. -/
def responseMessage (rs : List FunctionResponse) : Str :=
  ("Function call response:\n```json\n").data ++ stringifyResponses rs
    ++ ("\n```").data

/-- Observable steps of the tool-call bridge, in execution order: log-store
writes and the final `sendToolResponse` transmission. -/
inductive ToolEvent where
  | logTurn (text : Str)
  | send (responses : List FunctionResponse)
  deriving DecidableEq, Repr

/-- The `for (const fc of toolCall.functionCalls)` loop: per invocation, log
the trigger message and push the fixed response. -/
def toolCallLoop : List FunctionCallMsg → List ToolEvent × List FunctionResponse
  | [] => ([], [])
  | fc :: rest =>
    let r := toolCallLoop rest
    (ToolEvent.logTurn (triggerMessage fc) :: r.1, okResponse fc :: r.2)

/-- Embedding of `onToolCall` of `useLiveApi`: run the loop, log the serialized response
batch when non-empty, then send the batch. -/
def onToolCall (functionCalls : List FunctionCallMsg) : List ToolEvent :=
  let r := toolCallLoop functionCalls
  r.1
    ++ (if r.2.length > 0 then [ToolEvent.logTurn (responseMessage r.2)] else [])
    ++ [ToolEvent.send r.2]

/-- Outcome of the external `ai.models.generateContent` call.  The SDK is not
part of this repository, so its behaviour is a parameter of the embedding: it
either yields a response text or throws a JS error (carried as a string). -/
inductive GenOutcome where
  | success (text : Str)
  | failure (error : Str)
  deriving DecidableEq, Repr

/-- The external call inside the `try` block, as an `Except`-valued step. -/
def generateContentCall : GenOutcome → Except Str Str
  | GenOutcome.success t => Except.ok t
  | GenOutcome.failure e => Except.error e

/-- The literal returned from the `catch` block of `generateText`. -/
def fallbackMessage : Str :=
  ("An error occurred while trying to generate a response.").data

/-- Embedding of `generateText` of `useLiveApi`: try the one-shot generation call and
return its text; on any failure, catch and return the fixed fallback. -/
def generateText (outcome : GenOutcome) : Except Str Str :=
  match generateContentCall outcome with
  | Except.ok t => Except.ok t
  | Except.error _ => Except.ok fallbackMessage

/-- Modelled from the spec: the normalization as §4.3/§3 word it — lower-case,
trim, then strip only a *trailing* run of the punctuation characters, leaving
punctuation elsewhere in the text intact.  Stated for comparison with
`normalizeCommand`, which is taken from the source. -/
def normalizeCommandSpec (text : Str) : Str :=
  ((jsTrim (jsToLower text)).reverse.dropWhile
    (fun c => c == '.' || c == ',' || c == '?')).reverse

/-! ### Helper lemmas about the string primitives -/

theorem char_toNat_ofNat_valid (n : Nat) (h : n.isValidChar) :
    (Char.ofNat n).toNat = n := by
  rw [Char.ofNat, dif_pos h]
  simp [Char.ofNatAux, Char.toNat]
  rfl

theorem isWhitespace_eq_false_of_toNat {c : Char} (h : 64 < c.toNat) :
    c.isWhitespace = false := by
  have hs : c ≠ ' ' := by
    intro he; rw [he] at h; exact absurd h (by decide)
  have htb : c ≠ '\t' := by
    intro he; rw [he] at h; exact absurd h (by decide)
  have hr : c ≠ '\r' := by
    intro he; rw [he] at h; exact absurd h (by decide)
  have hn : c ≠ '\n' := by
    intro he; rw [he] at h; exact absurd h (by decide)
  simp [Char.isWhitespace, hs, htb, hr, hn]

theorem isWhitespace_toLower (c : Char) :
    (Char.toLower c).isWhitespace = c.isWhitespace := by
  simp only [Char.toLower]
  split
  · next h =>
    have hv : (Char.toNat c + 32).isValidChar := Or.inl (by omega)
    have ht : (Char.ofNat (Char.toNat c + 32)).toNat = Char.toNat c + 32 :=
      char_toNat_ofNat_valid _ hv
    rw [isWhitespace_eq_false_of_toNat (show (64:Nat) < c.toNat by omega),
      isWhitespace_eq_false_of_toNat (show 64 < (Char.ofNat (Char.toNat c + 32)).toNat by omega)]
  · rfl

theorem isWhitespace_comp_toLower :
    (Char.isWhitespace ∘ Char.toLower) = Char.isWhitespace :=
  funext isWhitespace_toLower

theorem jsTrim_jsToLower_comm (s : Str) :
    jsTrim (jsToLower s) = jsToLower (jsTrim s) := by
  unfold jsToLower jsTrim
  rw [List.dropWhile_map, isWhitespace_comp_toLower, ← List.map_reverse,
    List.dropWhile_map, isWhitespace_comp_toLower, ← List.map_reverse]

theorem removePunct_append (a b : Str) :
    removePunct (a ++ b) = removePunct a ++ removePunct b := by
  simp [removePunct]

/-! ### Helper lemmas about the remember-prefix loop -/

theorem rememberLoop_cons_pos {o p : Str} {ps : List Str}
    (hm : p.isPrefixOf (jsToLower o) = true) :
    rememberLoop o (p :: ps) =
      if (payloadOf o p).isEmpty then rememberLoop o ps else some (payloadOf o p) := by
  simp [rememberLoop, hm]

theorem rememberLoop_cons_neg {o p : Str} {ps : List Str}
    (hm : p.isPrefixOf (jsToLower o) = false) :
    rememberLoop o (p :: ps) = rememberLoop o ps := by
  simp [rememberLoop, hm]

theorem rememberLoop_eq_none_of_no_match {o : Str} {ps : List Str}
    (h : ∀ p ∈ ps, p.isPrefixOf (jsToLower o) = false) :
    rememberLoop o ps = none := by
  induction ps with
  | nil => rfl
  | cons p ps ih =>
    rw [rememberLoop_cons_neg (h p (List.mem_cons_self p ps))]
    exact ih fun q hq => h q (List.mem_cons_of_mem p hq)

theorem rememberLoop_some_match {o c : Str} {ps : List Str}
    (h : rememberLoop o ps = some c) :
    ∃ p ∈ ps, p.isPrefixOf (jsToLower o) = true ∧ c = payloadOf o p ∧
      (payloadOf o p).isEmpty = false := by
  induction ps with
  | nil => simp [rememberLoop] at h
  | cons p ps ih =>
    by_cases hm : p.isPrefixOf (jsToLower o) = true
    · rw [rememberLoop_cons_pos hm] at h
      by_cases he : (payloadOf o p).isEmpty
      · rw [if_pos he] at h
        obtain ⟨q, hq, h1, h2, h3⟩ := ih h
        exact ⟨q, List.mem_cons_of_mem p hq, h1, h2, h3⟩
      · rw [if_neg he] at h
        simp only [Bool.not_eq_true] at he
        exact ⟨p, List.mem_cons_self p ps, hm, (Option.some_inj.mp h).symm, he⟩
    · have hm2 : p.isPrefixOf (jsToLower o) = false := Bool.eq_false_iff.mpr hm
      rw [rememberLoop_cons_neg hm2] at h
      obtain ⟨q, hq, h1, h2, h3⟩ := ih h
      exact ⟨q, List.mem_cons_of_mem p hq, h1, h2, h3⟩

theorem rememberPrefixes_incomparable :
    ∀ p ∈ rememberPrefixes, ∀ q ∈ rememberPrefixes, p ≠ q → ¬(p <+: q) := by
  decide

theorem unique_prefix_match {o p q : Str} (hp : p ∈ rememberPrefixes)
    (hq : q ∈ rememberPrefixes) (hmp : p.isPrefixOf (jsToLower o) = true)
    (hmq : q.isPrefixOf (jsToLower o) = true) : p = q := by
  by_contra hne
  have h1 := List.isPrefixOf_iff_prefix.mp hmp
  have h2 := List.isPrefixOf_iff_prefix.mp hmq
  rcases List.prefix_or_prefix_of_prefix h1 h2 with h | h
  · exact rememberPrefixes_incomparable p hp q hq hne h
  · exact rememberPrefixes_incomparable q hq p hp (Ne.symm hne) h

theorem other_not_match {o p q : Str} (hp : p ∈ rememberPrefixes)
    (hq : q ∈ rememberPrefixes) (hne : q ≠ p)
    (hm : p.isPrefixOf (jsToLower o) = true) :
    q.isPrefixOf (jsToLower o) = false := by
  by_contra h
  rw [Bool.not_eq_false] at h
  exact hne (unique_prefix_match hq hp h hm)

theorem rememberLoop_eq_of_unique {o p : Str}
    (hm : p.isPrefixOf (jsToLower o) = true) :
    ∀ ps : List Str, p ∈ ps → ps.Nodup →
      (∀ q ∈ ps, q ≠ p → q.isPrefixOf (jsToLower o) = false) →
      rememberLoop o ps =
        if (payloadOf o p).isEmpty then none else some (payloadOf o p) := by
  intro ps
  induction ps with
  | nil => intro hp _ _; cases hp
  | cons a ps ih =>
    intro hp hnd hu
    rcases List.mem_cons.mp hp with rfl | hp2
    · rw [rememberLoop_cons_pos hm]
      by_cases he : (payloadOf o p).isEmpty
      · rw [if_pos he, if_pos he]
        refine rememberLoop_eq_none_of_no_match fun q hq => ?_
        have hqa : q ≠ p := by
          intro heq; subst heq; exact (List.nodup_cons.mp hnd).1 hq
        exact hu q (List.mem_cons_of_mem p hq) hqa
      · rw [if_neg he, if_neg he]
    · have hne : a ≠ p := by
        intro heq; subst heq; exact (List.nodup_cons.mp hnd).1 hp2
      rw [rememberLoop_cons_neg (hu a (List.mem_cons_self a ps) hne)]
      exact ih hp2 (List.nodup_cons.mp hnd).2
        (fun q hq hqp => hu q (List.mem_cons_of_mem a hq) hqp)

theorem rememberLoop_first_match {o p : Str} (hp : p ∈ rememberPrefixes)
    (hm : p.isPrefixOf (jsToLower o) = true) :
    rememberLoop o rememberPrefixes =
      if (payloadOf o p).isEmpty then none else some (payloadOf o p) :=
  rememberLoop_eq_of_unique hm rememberPrefixes hp (by decide)
    (fun q hq hne => other_not_match hp hq hne hm)

/-- All five exact-match rule sets, in the priority order of the `if` chain. -/
def allExactCommands : List Str :=
  openSettingsCommands ++ closeSettingsCommands ++ startCommands
    ++ stopCommands ++ recallCommands

theorem no_command_starts_with_remember :
    ∀ m ∈ allExactCommands, ∀ q ∈ rememberPrefixes, ¬(q <+: m) := by
  decide

theorem prefix_normalizeCommand {text p : Str} (hp : p ∈ rememberPrefixes)
    (hm : p.isPrefixOf (jsToLower (jsTrim text)) = true) :
    p <+: normalizeCommand text := by
  obtain ⟨t, ht⟩ := List.isPrefixOf_iff_prefix.mp hm
  have hclean : removePunct p = p := by fin_cases hp <;> decide
  refine ⟨removePunct t, ?_⟩
  unfold normalizeCommand
  rw [jsTrim_jsToLower_comm, ← ht, removePunct_append, hclean]

theorem rememberLoop_none_of_command_mem {text : Str}
    (h : normalizeCommand text ∈ allExactCommands) :
    rememberLoop (jsTrim text) rememberPrefixes = none := by
  cases hr : rememberLoop (jsTrim text) rememberPrefixes with
  | none => rfl
  | some c =>
    obtain ⟨p, hp, hm, -, -⟩ := rememberLoop_some_match hr
    exact absurd (prefix_normalizeCommand hp hm) (no_command_starts_with_remember _ h p hp)

theorem contains_eq_true_of_mem {l : List Str} {a : Str} (h : a ∈ l) :
    l.contains a = true :=
  List.elem_iff.mpr h

/-! ### Branch reductions of the command interpreter -/

theorem close_mem_not_earlier {c : Str} (h : c ∈ closeSettingsCommands) :
    c ∉ openSettingsCommands := by
  fin_cases h <;> decide

theorem start_mem_not_earlier {c : Str} (h : c ∈ startCommands) :
    c ∉ openSettingsCommands ∧ c ∉ closeSettingsCommands := by
  fin_cases h <;> exact (by decide)

theorem stop_mem_not_earlier {c : Str} (h : c ∈ stopCommands) :
    c ∉ openSettingsCommands ∧ c ∉ closeSettingsCommands ∧ c ∉ startCommands := by
  fin_cases h <;> exact (by decide)

theorem recall_mem_not_earlier {c : Str} (h : c ∈ recallCommands) :
    c ∉ openSettingsCommands ∧ c ∉ closeSettingsCommands ∧ c ∉ startCommands ∧
      c ∉ stopCommands := by
  fin_cases h <;> exact (by decide)

theorem live_not_final (text : Str) (now : Nat) (st : AppState) :
    onInputTranscriptionLive text false now st = (st, []) := rfl

theorem live_remember {text : Str} {now : Nat} {st : AppState} {content : Str}
    (h : rememberLoop (jsTrim text) rememberPrefixes = some content) :
    onInputTranscriptionLive text true now st =
      (addLog (addedMsg content) now
        { st with coreMemory := appendToCoreMemory st.coreMemory content },
       [Effect.appendMemory content, Effect.log (addedMsg content)]) := by
  simp [onInputTranscriptionLive, h]

theorem live_open_settings {text : Str} {now : Nat} {st : AppState}
    (h : normalizeCommand text ∈ openSettingsCommands) :
    onInputTranscriptionLive text true now st =
      (if st.isSidebarOpen = false then
        (addLog (recognizedMsg (normalizeCommand text)) now
          { st with isSidebarOpen := !st.isSidebarOpen },
         [Effect.toggleSidebarEff, Effect.log (recognizedMsg (normalizeCommand text))])
       else (st, [])) := by
  have hall : normalizeCommand text ∈ allExactCommands := by
    simp [allExactCommands, h]
  have hr := rememberLoop_none_of_command_mem hall
  simp [onInputTranscriptionLive, hr, h]

theorem live_close_settings {text : Str} {now : Nat} {st : AppState}
    (h : normalizeCommand text ∈ closeSettingsCommands) :
    onInputTranscriptionLive text true now st =
      (if st.isSidebarOpen then
        (addLog (recognizedMsg (normalizeCommand text)) now
          { st with isSidebarOpen := !st.isSidebarOpen },
         [Effect.toggleSidebarEff, Effect.log (recognizedMsg (normalizeCommand text))])
       else (st, [])) := by
  have hall : normalizeCommand text ∈ allExactCommands := by
    simp [allExactCommands, h]
  have hr := rememberLoop_none_of_command_mem hall
  simp [onInputTranscriptionLive, hr, close_mem_not_earlier h, h]

theorem live_start {text : Str} {now : Nat} {st : AppState}
    (h : normalizeCommand text ∈ startCommands) :
    onInputTranscriptionLive text true now st =
      (if st.connected = false then
        (addLog (recognizedMsg (normalizeCommand text)) now st,
         [Effect.connectEff, Effect.log (recognizedMsg (normalizeCommand text))])
       else (st, [])) := by
  have hall : normalizeCommand text ∈ allExactCommands := by
    simp [allExactCommands, h]
  have hr := rememberLoop_none_of_command_mem hall
  obtain ⟨h1, h2⟩ := start_mem_not_earlier h
  simp [onInputTranscriptionLive, hr, h1, h2, h]

theorem live_stop {text : Str} {now : Nat} {st : AppState}
    (h : normalizeCommand text ∈ stopCommands) :
    onInputTranscriptionLive text true now st =
      (if st.connected then
        (addLog (recognizedMsg (normalizeCommand text)) now
          { st with connected := false, quantumModeActive := false },
         [Effect.disconnectEff, Effect.log (recognizedMsg (normalizeCommand text))])
       else (st, [])) := by
  have hall : normalizeCommand text ∈ allExactCommands := by
    simp [allExactCommands, h]
  have hr := rememberLoop_none_of_command_mem hall
  obtain ⟨h1, h2, h3⟩ := stop_mem_not_earlier h
  simp [onInputTranscriptionLive, hr, h1, h2, h3, h]

theorem live_recall {text : Str} {now : Nat} {st : AppState}
    (h : normalizeCommand text ∈ recallCommands) :
    onInputTranscriptionLive text true now st =
      (match (addLog (recognizedMsg (normalizeCommand text)) now st).turns.reverse.find?
          (fun t => decide (t.role = Role.user) && t.isFinal) with
       | some lastUserTurn =>
         (addLog (youSaidMsg lastUserTurn.text) now
            (addLog (recognizedMsg (normalizeCommand text)) now st),
          [Effect.log (recognizedMsg (normalizeCommand text)),
           Effect.log (youSaidMsg lastUserTurn.text)])
       | none =>
         (addLog noRecordMsg now (addLog (recognizedMsg (normalizeCommand text)) now st),
          [Effect.log (recognizedMsg (normalizeCommand text)),
           Effect.log noRecordMsg])) := by
  have hall : normalizeCommand text ∈ allExactCommands := by
    simp [allExactCommands, h]
  have hr := rememberLoop_none_of_command_mem hall
  obtain ⟨h1, h2, h3, h4⟩ := recall_mem_not_earlier h
  simp [onInputTranscriptionLive, hr, h1, h2, h3, h4, h]

theorem live_no_match {text : Str} {now : Nat} {st : AppState}
    (hr : rememberLoop (jsTrim text) rememberPrefixes = none)
    (h1 : normalizeCommand text ∉ openSettingsCommands)
    (h2 : normalizeCommand text ∉ closeSettingsCommands)
    (h3 : normalizeCommand text ∉ startCommands)
    (h4 : normalizeCommand text ∉ stopCommands)
    (h5 : normalizeCommand text ∉ recallCommands) :
    onInputTranscriptionLive text true now st = (st, []) := by
  simp [onInputTranscriptionLive, hr, h1, h2, h3, h4, h5]

/-! ### Frame lemmas for the log store -/

theorem set_last_eq {α : Type} {l : List α} {a : α}
    (h : l.getLast? = some a) (x : α) :
    l.set (l.length - 1) x = l.dropLast ++ [x] := by
  obtain ⟨ys, rfl⟩ := List.getLast?_eq_some_iff.mp h
  simp [List.set_append]

theorem updateLastTurn_of_getLast? {l : List ConversationTurn}
    {lt : ConversationTurn} (h : l.getLast? = some lt) (u : TurnUpdate) :
    updateLastTurn u l = l.dropLast ++ [mergeTurn lt u] := by
  rw [updateLastTurn, h]
  exact set_last_eq h (mergeTurn lt u)

/-! ### Claim theorems -/

/-- C2: for every input-transcription event with `isFinal = false`, the command
interpreter performs no action at all: whatever the text (including text that
would match a command when final), the state is returned unchanged and no
connect, disconnect, UI toggle, memory append or log effect is performed. -/
theorem C2_nonfinal_ignored (text : Str) (now : Nat) (st : AppState) :
    onInputTranscriptionLive text false now st = (st, []) := rfl

/-- C9: `generateText` never propagates an exception to its caller: for every
outcome of the one-shot generation call it returns `Except.ok`, carrying the
generated text on success and the fixed human-readable fallback string on any
failure. -/
theorem C9_generateText_never_throws (o : GenOutcome) :
    (∀ e, generateText o ≠ Except.error e) ∧
    (∀ t, o = GenOutcome.success t → generateText o = Except.ok t) ∧
    (∀ e, o = GenOutcome.failure e → generateText o = Except.ok fallbackMessage) := by
  cases o <;> simp [generateText, generateContentCall]

/-- C9 witness: a concrete failing call returns the fallback string. -/
theorem C9_generateText_never_throws_witness :
    generateText (GenOutcome.failure (("network down").data)) =
      Except.ok fallbackMessage :=
  (C9_generateText_never_throws
    (GenOutcome.failure (("network down").data))).2.2 _ rfl

/-- C10: `updateLastTurn` applied to an empty turn log returns it unchanged;
applied to a non-empty log it replaces only the last turn, updating only its
`text` and `isFinal` fields per the update while preserving that turn's `role`
and `timestamp`, and leaves every earlier turn unchanged. -/
theorem C10_updateLastTurn_frame (u : TurnUpdate) (turns : List ConversationTurn) :
    (turns = [] → updateLastTurn u turns = turns) ∧
    (∀ lt, turns.getLast? = some lt →
      updateLastTurn u turns =
        turns.dropLast ++
          [⟨lt.role, u.textU.getD lt.text, u.isFinalU.getD lt.isFinal, lt.timestamp⟩]) := by
  constructor
  · rintro rfl; rfl
  · intro lt h
    rw [updateLastTurn_of_getLast? h]
    rfl

/-- C10 witness: a concrete update rewrites only the last turn's text. -/
theorem C10_updateLastTurn_frame_witness :
    updateLastTurn ⟨some (("new").data), none⟩
      [⟨Role.user, ("a").data, true, 5⟩, ⟨Role.agent, ("b").data, false, 7⟩] =
      [⟨Role.user, ("a").data, true, 5⟩, ⟨Role.agent, ("new").data, false, 7⟩] := by
  have h := (C10_updateLastTurn_frame ⟨some (("new").data), none⟩
      [⟨Role.user, ("a").data, true, 5⟩, ⟨Role.agent, ("b").data, false, 7⟩]).2
      ⟨Role.agent, ("b").data, false, 7⟩ (by decide)
  exact h.trans (by decide)

/-- Is an effect a log-store write? -/
def isLogEff : Effect → Bool
  | Effect.log _ => true
  | _ => false

/-- C6: the finalized transcript `stop` while connected performs exactly one
disconnect call and exactly one log entry (clearing the connected flag); while
already disconnected it performs neither and leaves the state unchanged. -/
theorem C6_stop_guarded (now : Nat) (st : AppState) :
    onInputTranscriptionLive (("stop").data) true now st =
      (if st.connected then
        (addLog (recognizedMsg (("stop").data)) now
          { st with connected := false, quantumModeActive := false },
         [Effect.disconnectEff, Effect.log (recognizedMsg (("stop").data))])
       else (st, [])) ∧
    ((onInputTranscriptionLive (("stop").data) true now st).2.count
        Effect.disconnectEff = if st.connected then 1 else 0) ∧
    ((onInputTranscriptionLive (("stop").data) true now st).2.countP isLogEff =
      if st.connected then 1 else 0) := by
  have hm : normalizeCommand (("stop").data) ∈ stopCommands := by decide
  have hn : normalizeCommand (("stop").data) = ("stop").data := by decide
  rw [live_stop hm, hn]
  by_cases hc : st.connected = true
  · simp [hc, List.count_cons, isLogEff, List.countP_cons, List.countP_nil]
  · simp at hc
    simp [hc, List.countP_nil]

theorem toolCallLoop_eq (fcs : List FunctionCallMsg) :
    toolCallLoop fcs =
      (fcs.map (fun fc => ToolEvent.logTurn (triggerMessage fc)),
       fcs.map okResponse) := by
  induction fcs with
  | nil => rfl
  | cons fc rest ih => simp [toolCallLoop, ih]

/-- C8: for every inbound tool-call batch, the bridge emits only log writes
followed by a single terminal send; every invocation's trigger message (name
plus serialized arguments) is among the logs, so each invocation is logged
before the response is sent; and the response batch contains, for each
invocation, the entry `{id, name, result: 'ok'}` — correlated by the
invocation's id and name, with a fixed literal result independent of the
invocation's name or arguments. -/
theorem C8_toolcall_bridge (fcs : List FunctionCallMsg) :
    ∃ logs : List Str,
      onToolCall fcs =
          logs.map ToolEvent.logTurn ++ [ToolEvent.send (fcs.map okResponse)] ∧
      ∀ fc ∈ fcs,
        triggerMessage fc ∈ logs ∧
        okResponse fc = ⟨fc.id, fc.name, ("ok").data⟩ ∧
        (⟨fc.id, fc.name, ("ok").data⟩ : FunctionResponse) ∈ fcs.map okResponse := by
  refine ⟨fcs.map triggerMessage
      ++ (if (fcs.map okResponse).length > 0
          then [responseMessage (fcs.map okResponse)] else []), ?_, ?_⟩
  · rw [onToolCall, toolCallLoop_eq]
    by_cases h : 0 < fcs.length
    · simp [h, Function.comp_def]
    · simp [h, Function.comp_def]
  · intro fc hfc
    refine ⟨List.mem_append_left _ (List.mem_map_of_mem triggerMessage hfc), rfl, ?_⟩
    exact List.mem_map_of_mem okResponse hfc

/-- C8 witness: a concrete one-invocation batch is logged and answered with
the fixed success payload. -/
theorem C8_toolcall_bridge_witness :
    ∃ logs : List Str,
      onToolCall [⟨("7").data, ("fetchData").data, ("\x7b\x7d").data⟩] =
          logs.map ToolEvent.logTurn
            ++ [ToolEvent.send [⟨("7").data, ("fetchData").data, ("ok").data⟩]] ∧
      triggerMessage ⟨("7").data, ("fetchData").data, ("\x7b\x7d").data⟩ ∈ logs := by
  obtain ⟨logs, h1, h2⟩ :=
    C8_toolcall_bridge [⟨("7").data, ("fetchData").data, ("\x7b\x7d").data⟩]
  obtain ⟨ha, -, -⟩ := h2 _ (List.mem_singleton.mpr rfl)
  have hx : List.map okResponse [⟨("7").data, ("fetchData").data, ("\x7b\x7d").data⟩] =
      [(⟨("7").data, ("fetchData").data, ("ok").data⟩ : FunctionResponse)] := by decide
  rw [hx] at h1
  exact ⟨logs, h1, ha⟩

/-- C3: for a finalized transcript matching a remember-prefix rule
(case-insensitive prefix check of the prefix against the original-cased,
trimmed text), the payload is the remainder after the prefix with one
optional leading colon stripped and then trimmed (`payloadOf`): a non-empty
payload `p` makes core memory become exactly `- p` when it was empty and the
old memory with `\n- p` appended when it was non-empty (plus the confirmation
log effect); an empty payload produces no memory change and no other
action. -/
theorem C3_remember_rule (text : Str) (now : Nat) (st : AppState) (p : Str)
    (hp : p ∈ rememberPrefixes)
    (hm : p.isPrefixOf (jsToLower (jsTrim text)) = true) :
    ((payloadOf (jsTrim text) p).isEmpty = false →
      onInputTranscriptionLive text true now st =
        (addLog (addedMsg (payloadOf (jsTrim text) p)) now
          { st with coreMemory :=
              if st.coreMemory = [] then ("- ").data ++ payloadOf (jsTrim text) p
              else st.coreMemory ++ ("\n- ").data ++ payloadOf (jsTrim text) p },
         [Effect.appendMemory (payloadOf (jsTrim text) p),
          Effect.log (addedMsg (payloadOf (jsTrim text) p))])) ∧
    ((payloadOf (jsTrim text) p).isEmpty = true →
      onInputTranscriptionLive text true now st = (st, [])) := by
  constructor
  · intro hne
    have hloop := rememberLoop_first_match hp hm
    rw [hne] at hloop
    simp only [Bool.false_eq_true, if_false] at hloop
    rw [live_remember hloop]
    by_cases hc : st.coreMemory = []
    · simp [appendToCoreMemory, hc]
    · have hc2 : st.coreMemory.isEmpty = false := by
        simpa [List.isEmpty_iff] using hc
      simp [appendToCoreMemory, hc, hc2]
  · intro he
    have hloop := rememberLoop_first_match hp hm
    rw [he] at hloop
    simp only [if_true] at hloop
    have hpref := prefix_normalizeCommand hp hm
    have hnotin : normalizeCommand text ∉ allExactCommands :=
      fun hmem => no_command_starts_with_remember _ hmem p hp hpref
    refine live_no_match hloop ?_ ?_ ?_ ?_ ?_ <;>
      exact fun hmem => hnotin (by simp [allExactCommands, hmem])

/-- C3 witness: `remember this: buy milk` on empty memory yields exactly
`- buy milk`; `remember this:` (empty payload) changes nothing. -/
theorem C3_remember_rule_witness :
    (onInputTranscriptionLive (("remember this: buy milk").data) true 3
        ⟨false, true, false, [], []⟩ =
      (⟨false, true, false, ("- buy milk").data,
        [⟨Role.system, addedMsg (("buy milk").data), true, 3⟩]⟩,
       [Effect.appendMemory (("buy milk").data),
        Effect.log (addedMsg (("buy milk").data))])) ∧
    (onInputTranscriptionLive (("remember this:").data) true 3
        ⟨false, true, false, ("- old").data, []⟩ =
      (⟨false, true, false, ("- old").data, []⟩, [])) := by
  constructor
  · have h := (C3_remember_rule (("remember this: buy milk").data) 3
        ⟨false, true, false, [], []⟩ (("remember this").data)
        (by decide) (by decide)).1 (by decide)
    exact h.trans (by decide)
  · exact (C3_remember_rule (("remember this:").data) 3
        ⟨false, true, false, ("- old").data, []⟩ (("remember this").data)
        (by decide) (by decide)).2 (by decide)

theorem find?_user_addLog (m : Str) (now : Nat) (st : AppState) :
    (addLog m now st).turns.reverse.find?
        (fun t => decide (t.role = Role.user) && t.isFinal) =
      st.turns.reverse.find? (fun t => decide (t.role = Role.user) && t.isFinal) := by
  show ((st.turns ++ [(⟨Role.system, m, true, now⟩ : ConversationTurn)]).reverse).find? _ = _
  rw [List.reverse_append]
  simp

/-- C4: when a finalized transcript matches a recall command, the handler logs
the recognition and then: when the log holds no turn with role `user` and
`isFinal = true`, the fixed no-record message; otherwise, the text of the most
recent such turn (first hit searching the log in reverse order), verbatim. -/
theorem C4_recall_verbatim (text : Str) (now : Nat) (st : AppState)
    (h : normalizeCommand text ∈ recallCommands) :
    (st.turns.reverse.find? (fun t => decide (t.role = Role.user) && t.isFinal) = none →
      onInputTranscriptionLive text true now st =
        (addLog noRecordMsg now (addLog (recognizedMsg (normalizeCommand text)) now st),
         [Effect.log (recognizedMsg (normalizeCommand text)), Effect.log noRecordMsg])) ∧
    (∀ lastUserTurn,
      st.turns.reverse.find? (fun t => decide (t.role = Role.user) && t.isFinal) =
          some lastUserTurn →
      onInputTranscriptionLive text true now st =
        (addLog (youSaidMsg lastUserTurn.text) now
           (addLog (recognizedMsg (normalizeCommand text)) now st),
         [Effect.log (recognizedMsg (normalizeCommand text)),
          Effect.log (youSaidMsg lastUserTurn.text)])) := by
  constructor
  · intro h0
    rw [live_recall h, find?_user_addLog, h0]
  · intro lastUserTurn h0
    rw [live_recall h, find?_user_addLog, h0]

/-- C4 witness: a concrete recall over a populated log reproduces the most
recent finalized user turn verbatim, and over a log with no finalized user
turn produces the fixed no-record message. -/
theorem C4_recall_verbatim_witness :
    (onInputTranscriptionLive (("what did I say?").data) true 9
        ⟨true, true, false, [],
         [⟨Role.user, ("hello world").data, true, 1⟩,
          ⟨Role.user, ("partial").data, false, 2⟩,
          ⟨Role.agent, ("hi").data, true, 3⟩]⟩ =
      (⟨true, true, false, [],
        [⟨Role.user, ("hello world").data, true, 1⟩,
         ⟨Role.user, ("partial").data, false, 2⟩,
         ⟨Role.agent, ("hi").data, true, 3⟩,
         ⟨Role.system, recognizedMsg (("what did i say").data), true, 9⟩,
         ⟨Role.system, youSaidMsg (("hello world").data), true, 9⟩]⟩,
       [Effect.log (recognizedMsg (("what did i say").data)),
        Effect.log (youSaidMsg (("hello world").data))])) ∧
    (onInputTranscriptionLive (("repeat that").data) true 9
        ⟨true, true, false, [], []⟩ =
      (⟨true, true, false, [],
        [⟨Role.system, recognizedMsg (("repeat that").data), true, 9⟩,
         ⟨Role.system, noRecordMsg, true, 9⟩]⟩,
       [Effect.log (recognizedMsg (("repeat that").data)),
        Effect.log noRecordMsg])) := by
  constructor
  · have h := (C4_recall_verbatim (("what did I say?").data) 9
        ⟨true, true, false, [],
         [⟨Role.user, ("hello world").data, true, 1⟩,
          ⟨Role.user, ("partial").data, false, 2⟩,
          ⟨Role.agent, ("hi").data, true, 3⟩]⟩ (by decide)).2
        ⟨Role.user, ("hello world").data, true, 1⟩ (by decide)
    exact h.trans (by decide)
  · have h := (C4_recall_verbatim (("repeat that").data) 9
        ⟨true, true, false, [], []⟩ (by decide)).1 (by decide)
    exact h.trans (by decide)

/-- Is an effect one of the side-effecting actions (connect, disconnect, UI
toggle, memory append), as opposed to a log entry? -/
def isActionEff : Effect → Bool
  | Effect.connectEff => true
  | Effect.disconnectEff => true
  | Effect.toggleSidebarEff => true
  | Effect.appendMemory _ => true
  | Effect.log _ => false

/-- C5: on every finalized transcript at most one action fires; prefix rules
take priority (a matched non-empty remember-payload acts regardless of the
exact-match sets); each exact-match rule set is guarded on current state
(open-settings is a no-op when the sidebar is open, close-settings when it is
closed, start-session when connected, stop-session when disconnected); and
text matching no prefix rule and no exact-match set produces no action and no
error. -/
theorem C5_exact_match_priority (text : Str) (now : Nat) (st : AppState) :
    (((onInputTranscriptionLive text true now st).2.filter isActionEff).length ≤ 1) ∧
    (∀ c, rememberLoop (jsTrim text) rememberPrefixes = some c →
      onInputTranscriptionLive text true now st =
        (addLog (addedMsg c) now
          { st with coreMemory := appendToCoreMemory st.coreMemory c },
         [Effect.appendMemory c, Effect.log (addedMsg c)])) ∧
    (normalizeCommand text ∈ openSettingsCommands → st.isSidebarOpen = true →
      onInputTranscriptionLive text true now st = (st, [])) ∧
    (normalizeCommand text ∈ closeSettingsCommands → st.isSidebarOpen = false →
      onInputTranscriptionLive text true now st = (st, [])) ∧
    (normalizeCommand text ∈ startCommands → st.connected = true →
      onInputTranscriptionLive text true now st = (st, [])) ∧
    (normalizeCommand text ∈ stopCommands → st.connected = false →
      onInputTranscriptionLive text true now st = (st, [])) ∧
    (rememberLoop (jsTrim text) rememberPrefixes = none →
      normalizeCommand text ∉ allExactCommands →
      onInputTranscriptionLive text true now st = (st, [])) := by
  have hlen : ((onInputTranscriptionLive text true now st).2.filter isActionEff).length ≤ 1 := by
    cases hr : rememberLoop (jsTrim text) rememberPrefixes with
    | some c => rw [live_remember hr]; simp [isActionEff]
    | none =>
      by_cases h1 : normalizeCommand text ∈ openSettingsCommands
      · rw [live_open_settings h1]; split <;> simp [isActionEff]
      · by_cases h2 : normalizeCommand text ∈ closeSettingsCommands
        · rw [live_close_settings h2]; split <;> simp [isActionEff]
        · by_cases h3 : normalizeCommand text ∈ startCommands
          · rw [live_start h3]; split <;> simp [isActionEff]
          · by_cases h4 : normalizeCommand text ∈ stopCommands
            · rw [live_stop h4]; split <;> simp [isActionEff]
            · by_cases h5 : normalizeCommand text ∈ recallCommands
              · rw [live_recall h5]; split <;> simp [isActionEff]
              · rw [live_no_match hr h1 h2 h3 h4 h5]; simp
  refine ⟨hlen, ?_, ?_, ?_, ?_, ?_, ?_⟩
  · intro c hc
    exact live_remember hc
  · intro h hopen
    rw [live_open_settings h]
    simp [hopen]
  · intro h hclosed
    rw [live_close_settings h]
    simp [hclosed]
  · intro h hconn
    rw [live_start h]
    simp [hconn]
  · intro h hdisc
    rw [live_stop h]
    simp [hdisc]
  · intro hr hnm
    exact live_no_match hr
      (fun hmem => hnm (by simp [allExactCommands, hmem]))
      (fun hmem => hnm (by simp [allExactCommands, hmem]))
      (fun hmem => hnm (by simp [allExactCommands, hmem]))
      (fun hmem => hnm (by simp [allExactCommands, hmem]))
      (fun hmem => hnm (by simp [allExactCommands, hmem]))

/-- C5 witness: `open settings` with the sidebar already open is a no-op, and
unmatched text produces no action. -/
theorem C5_exact_match_priority_witness :
    (onInputTranscriptionLive (("open settings").data) true 4
        ⟨false, true, false, [], []⟩ = (⟨false, true, false, [], []⟩, [])) ∧
    (onInputTranscriptionLive (("hello there").data) true 4
        ⟨false, true, false, [], []⟩ = (⟨false, true, false, [], []⟩, [])) := by
  constructor
  · exact (C5_exact_match_priority (("open settings").data) 4
      ⟨false, true, false, [], []⟩).2.2.1 (by decide) rfl
  · exact (C5_exact_match_priority (("hello there").data) 4
      ⟨false, true, false, [], []⟩).2.2.2.2.2.2 (by decide) (by decide)

/-- C1 counterexample: with the log `[user "hel" (non-final), agent "x"
(non-final)]`, the previous turn for the user role is non-final, yet the
non-final user chunk `lo` is NOT appended to that accumulator: the handler
starts a fresh user turn (the log grows to three turns and no user turn holds
the concatenation "hello"), because the intervening agent turn — not the user
turn — is the last turn overall.  This refutes both the per-role append rule
and cross-role independence as stated. -/
theorem C1_counterexample :
    (([⟨Role.user, ("hel").data, false, 0⟩,
       ⟨Role.agent, ("x").data, false, 1⟩] : List ConversationTurn).reverse.find?
        (fun t => decide (t.role = Role.user)) =
      some ⟨Role.user, ("hel").data, false, 0⟩) ∧
    (onInputTranscriptionConsole (("lo").data) false 2
        [⟨Role.user, ("hel").data, false, 0⟩, ⟨Role.agent, ("x").data, false, 1⟩] =
      [⟨Role.user, ("hel").data, false, 0⟩, ⟨Role.agent, ("x").data, false, 1⟩,
       ⟨Role.user, ("lo").data, false, 2⟩]) ∧
    ¬(∃ t ∈ onInputTranscriptionConsole (("lo").data) false 2
        [⟨Role.user, ("hel").data, false, 0⟩, ⟨Role.agent, ("x").data, false, 1⟩],
        t.role = Role.user ∧ t.text = ("hel").data ++ ("lo").data) := by
  decide

/-- C1 amended: transcript accumulation keys on the log's last turn overall,
not on the previous turn of the chunk's role: a chunk is appended to the
existing accumulator exactly when the last turn is a non-final turn of the
chunk's role (the chunk's finality then closes or continues the turn);
otherwise — last turn final, of the other role, or log empty — a new turn is
started.  An intervening turn of the other role therefore closes a role's
accumulation: the two roles are not independent. -/
theorem C1_accumulation (text : Str) (isFinal : Bool) (now : Nat)
    (turns : List ConversationTurn) :
    (turns.getLast? = none →
      onInputTranscriptionConsole text isFinal now turns =
          [⟨Role.user, text, isFinal, now⟩] ∧
      onOutputTranscriptionConsole text isFinal now turns =
          [⟨Role.agent, text, isFinal, now⟩]) ∧
    (∀ lt, turns.getLast? = some lt →
      (lt.role = Role.user ∧ lt.isFinal = false →
        onInputTranscriptionConsole text isFinal now turns =
          turns.dropLast ++ [⟨lt.role, lt.text ++ text, isFinal, lt.timestamp⟩]) ∧
      (¬(lt.role = Role.user ∧ lt.isFinal = false) →
        onInputTranscriptionConsole text isFinal now turns =
          turns ++ [⟨Role.user, text, isFinal, now⟩]) ∧
      (lt.role = Role.agent ∧ lt.isFinal = false →
        onOutputTranscriptionConsole text isFinal now turns =
          turns.dropLast ++ [⟨lt.role, lt.text ++ text, isFinal, lt.timestamp⟩]) ∧
      (¬(lt.role = Role.agent ∧ lt.isFinal = false) →
        onOutputTranscriptionConsole text isFinal now turns =
          turns ++ [⟨Role.agent, text, isFinal, now⟩])) := by
  constructor
  · intro h
    have he : turns = [] := List.getLast?_eq_none_iff.mp h
    subst he
    exact ⟨rfl, rfl⟩
  · intro lt h
    refine ⟨?_, ?_, ?_, ?_⟩
    · intro hu
      simp only [onInputTranscriptionConsole, h]
      rw [if_pos hu, updateLastTurn_of_getLast? h]
      rfl
    · intro hn
      simp only [onInputTranscriptionConsole, h]
      rw [if_neg hn]
      rfl
    · intro ha
      simp only [onOutputTranscriptionConsole, h]
      rw [if_pos ha, updateLastTurn_of_getLast? h]
      rfl
    · intro hn
      simp only [onOutputTranscriptionConsole, h]
      rw [if_neg hn]
      rfl

/-- C1 witness: a final user chunk arriving after a non-final user turn closes
that turn by appending to it. -/
theorem C1_accumulation_witness :
    onInputTranscriptionConsole (("b").data) true 7
        [⟨Role.user, ("a").data, false, 0⟩] =
      [⟨Role.user, ("a").data ++ ("b").data, true, 0⟩] := by
  have h := ((C1_accumulation (("b").data) true 7
      [⟨Role.user, ("a").data, false, 0⟩]).2
      ⟨Role.user, ("a").data, false, 0⟩ (by decide)).1 ⟨rfl, rfl⟩
  exact h.trans (by decide)

/-- C7 counterexample: the claim says the normalization only strips trailing
punctuation, preserving punctuation elsewhere; on the raw text `a.b` the code
yields `ab` (the interior dot is removed) while the trailing-only
normalization yields `a.b`. -/
theorem C7_counterexample :
    normalizeCommand (("a.b").data) ≠ normalizeCommandSpec (("a.b").data) ∧
    normalizeCommand (("a.b").data) = ("ab").data ∧
    normalizeCommandSpec (("a.b").data) = ("a.b").data := by
  decide

/-- C7 amended: the normalization used for exact-match classification equals
the raw text lower-cased, trimmed, with every occurrence of the characters
`.`, `,`, `?` removed wherever they occur (not only trailing); and the
classification of prefix-free finalized text depends only on this normalized
form. -/
theorem C7_normalization (text : Str) :
    normalizeCommand text =
      (jsTrim (jsToLower text)).filter
        (fun c => !([('.' : Char), ',', '?'].contains c)) ∧
    (∀ t2 now st,
      (∀ q ∈ rememberPrefixes, q.isPrefixOf (jsToLower (jsTrim text)) = false) →
      (∀ q ∈ rememberPrefixes, q.isPrefixOf (jsToLower (jsTrim t2)) = false) →
      normalizeCommand text = normalizeCommand t2 →
      onInputTranscriptionLive text true now st =
        onInputTranscriptionLive t2 true now st) := by
  constructor
  · have hpt : ∀ c : Char,
        (!(c == '.' || c == ',' || c == '?')) =
          (!([('.' : Char), ',', '?'].contains c)) := by
      intro c
      by_cases h1 : c = '.' <;> by_cases h2 : c = ',' <;> by_cases h3 : c = '?' <;>
        simp [h1, h2, h3]
    exact List.filter_congr fun a _ => hpt a
  · intro t2 now st hq1 hq2 heq
    have hr1 : rememberLoop (jsTrim text) rememberPrefixes = none :=
      rememberLoop_eq_none_of_no_match hq1
    have hr2 : rememberLoop (jsTrim t2) rememberPrefixes = none :=
      rememberLoop_eq_none_of_no_match hq2
    by_cases h1 : normalizeCommand text ∈ openSettingsCommands
    · rw [live_open_settings h1, live_open_settings (heq ▸ h1), heq]
    · by_cases h2 : normalizeCommand text ∈ closeSettingsCommands
      · rw [live_close_settings h2, live_close_settings (heq ▸ h2), heq]
      · by_cases h3 : normalizeCommand text ∈ startCommands
        · rw [live_start h3, live_start (heq ▸ h3), heq]
        · by_cases h4 : normalizeCommand text ∈ stopCommands
          · rw [live_stop h4, live_stop (heq ▸ h4), heq]
          · by_cases h5 : normalizeCommand text ∈ recallCommands
            · rw [live_recall h5, live_recall (heq ▸ h5), heq]
            · rw [live_no_match hr1 h1 h2 h3 h4 h5,
                live_no_match hr2 (heq ▸ h1) (heq ▸ h2) (heq ▸ h3) (heq ▸ h4)
                  (heq ▸ h5)]

/-- C7 witness: two texts differing only in interior/trailing punctuation
normalize identically and are classified identically. -/
theorem C7_normalization_witness :
    onInputTranscriptionLive (("stop stream.").data) true 2
        ⟨true, true, false, [], []⟩ =
      onInputTranscriptionLive (("stop stream?").data) true 2
        ⟨true, true, false, [], []⟩ :=
  (C7_normalization (("stop stream.").data)).2 (("stop stream?").data) 2
    ⟨true, true, false, [], []⟩ (by decide) (by decide) (by decide)
